import Mathlib

/-!
Verification of the `eqly_job_scrapper` repository against its
natural-language specification.

The repository is a Python job scraper: three source adapters
(`src/sources/remote_ok.py`, `src/sources/remotive.py`,
`src/sources/adzuna.py`), a shared domain model (`src/utils.py`), a
Firestore integration (`src/firebase.py`) and a CLI orchestrator
(`src/main.py`).

This file shallowly embeds the relevant code in Lean:

* Python strings are `List Char` (only the ASCII behaviour of
  `str.lower`/`str.strip` is modelled, which covers every string the
  claims mention);
* Python floats are modelled as rationals `ℚ` (all the salary
  arithmetic in the claims is exact decimal arithmetic);
* Python `datetime` objects are modelled by `PyDateTime`: a wall-clock
  timestamp in seconds together with an optional UTC offset (`none`
  models a timezone-naive datetime);
* fallible Python code returns `Except PyError`; `PyError` covers the
  exceptions the claims are about (`TypeError` from comparing naive and
  aware datetimes, `NameError` from an unbound global, `ImportError`
  from a failed `from … import …`);
* `datetime.now(timezone.utc)` is passed in explicitly as an integer
  UTC timestamp `now`.
-/

/-! ### Python string helpers -/

/-- ASCII case folding of one character: the fragment of Python
`str.lower` exercised by the repository's salary strings. -/
def pyLowerChar (c : Char) : Char :=
  if 'A' ≤ c ∧ c ≤ 'Z' then Char.ofNat (c.toNat + 32) else c

/-- Python `str.lower`, restricted to ASCII letters. -/
def pyLower (s : List Char) : List Char := s.map pyLowerChar

/-- The character class of Python `str.strip()` (ASCII whitespace:
space, tab, newline, carriage return, vertical tab, form feed). -/
def pyIsSpace (c : Char) : Bool :=
  c = ' ' ∨ c = '\t' ∨ c = '\n' ∨ c = '\r' ∨ c = '\x0b' ∨ c = '\x0c'

/-- Python `str.strip()`: remove leading and trailing whitespace. -/
def pyStrip (s : List Char) : List Char :=
  ((s.dropWhile pyIsSpace).reverse.dropWhile pyIsSpace).reverse

/-- Does `pat` occur at the start of `s`?  (Helper for the substring
test below.) -/
def startsWithChars : List Char → List Char → Bool
  | [], _ => true
  | _ :: _, [] => false
  | a :: as, b :: bs => a = b && startsWithChars as bs

/-- Python's `pat in s` substring test (also the semantics of
`re.search(re.escape(pat), s)`, which the Remotive salary parser uses). -/
def hasSubChars (pat : List Char) : List Char → Bool
  | [] => startsWithChars pat []
  | c :: cs => startsWithChars pat (c :: cs) || hasSubChars pat cs

/-- Numeric value of a list of ASCII digits, most significant first. -/
def digitsToNat (ds : List Char) : ℕ :=
  ds.foldl (fun n c => 10 * n + (c.toNat - 48)) 0

/-! ### Python datetimes

`PyDateTime` carries the wall-clock instant a `datetime` denotes, in
seconds (field-wise lexicographic comparison of Python datetimes agrees
with comparison of these second counts), and the UTC offset of its
`tzinfo`, with `none` for a naive datetime. -/

/-- The Python exceptions relevant to the claims. -/
inductive PyError where
  | typeError : PyError
  | nameError : PyError
  | importError : PyError
deriving DecidableEq, Repr

/-- A Python `datetime`: wall-clock seconds plus optional UTC offset
(seconds); `tz = none` models a timezone-naive datetime. -/
structure PyDateTime where
  naive : ℤ
  tz : Option ℤ
deriving DecidableEq, Repr

/-- The UTC instant of a datetime, reading a naive one as offset `0`.
Only used where all datetimes involved are known to be aware (or all
naive, where Python's wall-clock comparison coincides with it). -/
def PyDateTime.utcKey (d : PyDateTime) : ℤ := d.naive - d.tz.getD 0

/-- Python `d1 >= d2` on datetimes: compares wall clocks when both are
naive, UTC instants when both are aware, and raises `TypeError` when
one is naive and the other aware. -/
def pyDtGe (d1 d2 : PyDateTime) : Except PyError Bool :=
  match d1.tz, d2.tz with
  | none, none => .ok (decide (d2.naive ≤ d1.naive))
  | some o1, some o2 => .ok (decide (d2.naive - o2 ≤ d1.naive - o1))
  | _, _ => .error .typeError

/-- Days from 1970-01-01 of a proleptic-Gregorian civil date
(Howard Hinnant's `days_from_civil`, with floor division). -/
def daysFromCivil (y m d : ℤ) : ℤ :=
  let y' := if m ≤ 2 then y - 1 else y
  let era := Int.fdiv y' 400
  let yoe := y' - era * 400
  let mp := if 2 < m then m - 3 else m + 9
  let doy := Int.fdiv (153 * mp + 2) 5 + d - 1
  let doe := yoe * 365 + Int.fdiv yoe 4 - Int.fdiv yoe 100 + doy
  era * 146097 + doe - 719468

/-- Wall-clock seconds since the epoch of a civil date-time. -/
def civilToSeconds (y m d hh mm ss : ℤ) : ℤ :=
  daysFromCivil y m d * 86400 + hh * 3600 + mm * 60 + ss

/-- Read `n` ASCII digits from the front of a string. -/
def readDigits (n : ℕ) (s : List Char) : Option (ℕ × List Char) :=
  let ds := s.take n
  if ds.length = n ∧ ds.all Char.isDigit then some (digitsToNat ds, s.drop n)
  else none

/-- Parse a `±HH:MM` or `Z` UTC-offset suffix (seconds). -/
def parseIsoOffset (s : List Char) : Option ℤ :=
  match s with
  | ['Z'] => some 0
  | sign :: rest =>
    if sign = '+' ∨ sign = '-' then
      match readDigits 2 rest with
      | some (h, r1) =>
        match r1 with
        | ':' :: r2 =>
          match readDigits 2 r2 with
          | some (mi, []) =>
            if h < 24 ∧ mi < 60 then
              some ((if sign = '-' then -1 else 1) * (h * 3600 + mi * 60))
            else none
          | _ => none
        | _ => none
      | none => none
    else none
  | _ => none

/-- Parse an `HH:MM:SS[offset]` time suffix: seconds into the day and
the optional offset. -/
def parseIsoTime (s : List Char) : Option (ℤ × Option ℤ) :=
  match readDigits 2 s with
  | some (hh, r1) =>
    match r1 with
    | ':' :: r2 =>
      match readDigits 2 r2 with
      | some (mi, r3) =>
        match r3 with
        | ':' :: r4 =>
          match readDigits 2 r4 with
          | some (ss, r5) =>
            if hh < 24 ∧ mi < 60 ∧ ss < 60 then
              match r5 with
              | [] => some ((hh : ℤ) * 3600 + mi * 60 + ss, none)
              | _ =>
                match parseIsoOffset r5 with
                | some off => some ((hh : ℤ) * 3600 + mi * 60 + ss, some off)
                | none => none
            else none
          | none => none
        | _ => none
      | none => none
    | _ => none
  | none => none

/-- `datetime.fromisoformat`, on the ISO-8601 subset the feeds emit:
`YYYY-MM-DD`, optionally followed by `T` or a space and `HH:MM:SS`,
optionally followed by `Z` or `±HH:MM`.  A string with no explicit
offset parses to a *naive* datetime (`tz = none`), exactly as in
Python. -/
def fromisoformat (s : List Char) : Option PyDateTime :=
  match readDigits 4 s with
  | some (y, r1) =>
    match r1 with
    | '-' :: r2 =>
      match readDigits 2 r2 with
      | some (mo, r3) =>
        match r3 with
        | '-' :: r4 =>
          match readDigits 2 r4 with
          | some (d, r5) =>
            if 1 ≤ mo ∧ mo ≤ 12 ∧ 1 ≤ d ∧ d ≤ 31 then
              match r5 with
              | [] => some ⟨civilToSeconds y mo d 0 0 0, none⟩
              | sep :: r6 =>
                if sep = 'T' ∨ sep = ' ' then
                  match parseIsoTime r6 with
                  | some (secs, off) =>
                    some ⟨daysFromCivil y mo d * 86400 + secs, off⟩
                  | none => none
                else none
            else none
          | none => none
        | _ => none
      | none => none
    | _ => none
  | none => none

/-! ### The `Job` domain record (`src/utils.py`) -/

/-- `utils.Job`: the normalised job listing. -/
structure Job where
  title : List Char
  company : List Char
  location : List Char
  publication_date : PyDateTime
  salary_min : Option ℚ
  salary_max : Option ℚ
  currency : Option (List Char)
  url : List Char
  source : List Char
deriving DecidableEq, Repr

/-- Python's `x or y` on optional floats: `x` when it is truthy (present
and non-zero), else `y`.  This is the exact semantics of the expression
`self.salary_max or self.salary_min` in `Job.average_salary`. -/
def pyOrOpt (x y : Option ℚ) : Option ℚ :=
  match x with
  | some v => if v = 0 then y else some v
  | none => y

/-- `utils.Job.average_salary`: the mean of the bounds when both are
present, otherwise `self.salary_max or self.salary_min` (Python
truthiness, so a present `salary_max` of `0` falls through). -/
def Job.average_salary (j : Job) : Option ℚ :=
  match j.salary_min, j.salary_max with
  | some a, some b => some ((a + b) / 2)
  | _, _ => pyOrOpt j.salary_max j.salary_min

/-- `utils.is_recent(job, days)`: `publication_date >= now - timedelta(days=days)`
where `now = datetime.now(timezone.utc)` is modelled by the explicit
UTC timestamp `now`; the cutoff is aware (offset `0`), so a naive
`publication_date` makes the comparison raise `TypeError`. -/
def is_recent (now : ℤ) (j : Job) (days : ℤ) : Except PyError Bool :=
  pyDtGe j.publication_date ⟨now - days * 86400, some 0⟩

/-- `utils.is_top_company(job, top_companies)`: case-insensitive
substring match of any trimmed entry against the company name; false on
an empty list. -/
def is_top_company (j : Job) (topCompanies : List (List Char)) : Bool :=
  if topCompanies = [] then false
  else topCompanies.any (fun tc => hasSubChars (pyLower (pyStrip tc)) (pyLower j.company))

/-! ### The Remotive salary parser (`src/sources/remotive.py`, `_parse_salary`)

The Python code is
`re.findall(r"([0-9][0-9,]*\.?[0-9]*)k?", salary_text.lower())`
followed, for each captured token `m`, by
`float(m.replace(",", ""))`, multiplied by 1000 when
`re.search(rf"{re.escape(m)}k", salary_text.lower())` succeeds (i.e.
when `m` immediately followed by `k` occurs *anywhere* in the string).
`findNumTokens` simulates the regex scan exactly: the pattern has no
backtracking (every sub-pattern after the leading digit is optional and
greedy), so each match is: one digit, then greedy digits-or-commas,
then an optional dot with greedy digits, then an optional `k` which is
consumed but not captured. -/

/-- Consume one captured token after its leading digit `c`: greedy
`[0-9,]*`, then optional `.` with greedy `[0-9]*`.  Returns the
captured group and the rest of the input. -/
def grabNumToken (c : Char) (cs : List Char) : List Char × List Char :=
  let p1 := cs.takeWhile (fun d => d.isDigit || d = ',')
  let r1 := cs.dropWhile (fun d => d.isDigit || d = ',')
  if r1.head? = some '.' then
    (c :: p1 ++ '.' :: r1.tail.takeWhile Char.isDigit, r1.tail.dropWhile Char.isDigit)
  else (c :: p1, r1)

/-- The full regex scan of
`re.findall(r"([0-9][0-9,]*\.?[0-9]*)k?", text)`: each element is a
captured group together with whether the trailing optional `k` matched
at *that occurrence* (the `k` is consumed by the match but not
captured, so `findall` itself returns only the first components). -/
def regexScanSalary : List Char → List (List Char × Bool)
  | [] => []
  | c :: cs =>
    if c.isDigit then
      let t := grabNumToken c cs
      if t.2.head? = some 'k' then (t.1, true) :: regexScanSalary t.2.tail
      else (t.1, false) :: regexScanSalary t.2
    else regexScanSalary cs
termination_by l => l.length
decreasing_by
  all_goals simp only [List.length_cons]
  · have h2 : (grabNumToken c cs).2.length ≤ cs.length := by
      unfold grabNumToken
      have h1 : (cs.dropWhile (fun d => d.isDigit || d = ',')).length ≤ cs.length :=
        List.Sublist.length_le (List.dropWhile_sublist _)
      by_cases h : (cs.dropWhile (fun d => d.isDigit || d = ',')).head? = some '.'
      · have h3 : ((cs.dropWhile (fun d => d.isDigit || d = ',')).tail.dropWhile
            Char.isDigit).length ≤ (cs.dropWhile (fun d => d.isDigit || d = ',')).tail.length :=
          List.Sublist.length_le (List.dropWhile_sublist _)
        have h4 : (cs.dropWhile (fun d => d.isDigit || d = ',')).tail.length ≤
            (cs.dropWhile (fun d => d.isDigit || d = ',')).length := by
          simp [List.length_tail]
        simp only [h, if_pos]
        omega
      · simp only [h, if_neg, ite_false]
        exact h1
    have h5 : (grabNumToken c cs).2.tail.length ≤ (grabNumToken c cs).2.length := by
      simp [List.length_tail]
    omega
  · have h2 : (grabNumToken c cs).2.length ≤ cs.length := by
      unfold grabNumToken
      have h1 : (cs.dropWhile (fun d => d.isDigit || d = ',')).length ≤ cs.length :=
        List.Sublist.length_le (List.dropWhile_sublist _)
      by_cases h : (cs.dropWhile (fun d => d.isDigit || d = ',')).head? = some '.'
      · have h3 : ((cs.dropWhile (fun d => d.isDigit || d = ',')).tail.dropWhile
            Char.isDigit).length ≤ (cs.dropWhile (fun d => d.isDigit || d = ',')).tail.length :=
          List.Sublist.length_le (List.dropWhile_sublist _)
        have h4 : (cs.dropWhile (fun d => d.isDigit || d = ',')).tail.length ≤
            (cs.dropWhile (fun d => d.isDigit || d = ',')).length := by
          simp [List.length_tail]
        simp only [h, if_pos]
        omega
      · simp only [h, if_neg, ite_false]
        exact h1
    omega
  · omega

/-- All captured groups of
`re.findall(r"([0-9][0-9,]*\.?[0-9]*)k?", text)`, in order. -/
def findNumTokens (s : List Char) : List (List Char) :=
  (regexScanSalary s).map Prod.fst

/-- `float(m.replace(",", ""))` on a captured token: strip commas, read
the integer part and the optional decimal fraction. -/
def tokenValue (tok : List Char) : ℚ :=
  let t := tok.filter (fun c => ¬ c = ',')
  let ip := t.takeWhile Char.isDigit
  let rest := t.dropWhile Char.isDigit
  let fp := match rest with | '.' :: r => r | _ => []
  (digitsToNat ip : ℚ) + (digitsToNat fp : ℚ) / (10 : ℚ) ^ fp.length

/-- The tail of `_parse_salary`: no numbers gives `(None, None)`, two or
more gives `(first, second)`, exactly one gives `(None, it)`. -/
def pairUpNums (nums : List ℚ) : Option ℚ × Option ℚ :=
  match nums with
  | [] => (none, none)
  | [x] => (none, some x)
  | x :: y :: _ => (some x, some y)

/-- `remotive._parse_salary`: tokenize the lower-cased text, skip empty
captures (dead code: captures always start with a digit), scale a token
by 1000 when the token followed by `k` occurs anywhere in the text, and
pair up the results. -/
def remotiveParseSalary (s : List Char) : Option ℚ × Option ℚ :=
  let t := pyLower s
  let ms := findNumTokens t
  if ms = [] then (none, none)
  else
    pairUpNums (ms.filterMap (fun m =>
      if m = [] then none
      else some (if hasSubChars (m ++ ['k']) t then tokenValue m * 1000 else tokenValue m)))

/-- Modelled from the claim's words (claim C4): each captured numeric
token is multiplied by 1000 if and only if *that token occurrence* is
immediately followed by `k` in the lower-cased text.  Tokenization and
numeric conversion are shared with the code's parser; only the
multiplier rule differs. -/
def claimParseSalary (s : List Char) : Option ℚ × Option ℚ :=
  let t := pyLower s
  pairUpNums ((regexScanSalary t).map
    (fun mk => if mk.2 then tokenValue mk.1 * 1000 else tokenValue mk.1))

/-! ### Per-adapter salary filtering (`remote_ok.py` lines 104-118,
`remotive.py` lines 125-138, `adzuna.py` lines 131-143) -/

/-- The average-salary computation every adapter performs inline:
mean when both bounds are present, else `salary_max` when present, else
`salary_min` when present, else absent.  (Unlike `Job.average_salary`,
the adapters test `is not None`, so a bound of `0` is kept.) -/
def adapterAvgSalary (mn mx : Option ℚ) : Option ℚ :=
  match mn, mx with
  | some a, some b => some ((a + b) / 2)
  | _, some b => some b
  | some a, none => some a
  | none, none => none

/-- The Remote OK adapter's salary guard
(`if avg_salary is None or avg_salary < min_salary: continue`):
`true` means the item is kept. -/
def remoteOkSalaryKeep (avg : Option ℚ) (minSalary : ℚ) : Bool :=
  match avg with
  | none => false
  | some v => decide (¬ v < minSalary)

/-- The Remotive adapter's salary guards
(`if avg_salary is None and min_salary > 0: continue` then
`if avg_salary is not None and avg_salary < min_salary: continue`):
`true` means the item is kept. -/
def remotiveSalaryKeep (avg : Option ℚ) (minSalary : ℚ) : Bool :=
  match avg with
  | none => decide (¬ 0 < minSalary)
  | some v => decide (¬ v < minSalary)

/-! ### The Remotive adapter's per-item processing
(`src/sources/remotive.py`, `fetch_jobs` lines 101-154) -/

/-- A raw item of the Remotive feed: the fields `fetch_jobs` reads,
each optional exactly as `item.get` treats them. -/
structure RemotiveItem where
  publication_date : Option (List Char)
  company_name : Option (List Char)
  salary : Option (List Char)
  title : Option (List Char)
  candidate_required_location : Option (List Char)
  url : Option (List Char)
deriving DecidableEq, Repr

/-- One iteration of the Remotive `for item in items` loop: `.ok none`
when the item is skipped by a `continue`, `.ok (some job)` when a job is
appended, `.error e` when an uncaught exception propagates (only the
initial `fromisoformat` is inside a `try`; in particular a `TypeError`
from `is_recent` is *not* caught). -/
def remotiveProcessItem (now days : ℤ) (minSalary : ℚ)
    (topCompanies : List (List Char)) (item : RemotiveItem) :
    Except PyError (Option Job) :=
  match fromisoformat ((item.publication_date).getD []) with
  | none => .ok none
  | some published => do
    let dummy : Job :=
      ⟨[], [], [], published, none, none, none, [], ("Remotive").toList⟩
    let recent ← is_recent now dummy days
    if !recent then return none
    let company := (item.company_name).getD (("N/A").toList)
    if topCompanies ≠ [] then
      if !is_top_company { dummy with company := company } topCompanies then
        return none
    let ps := remotiveParseSalary ((item.salary).getD [])
    let avg := adapterAvgSalary ps.1 ps.2
    if !remotiveSalaryKeep avg minSalary then return none
    return some
      { title := (item.title).getD []
        company := company
        location := (item.candidate_required_location).getD (("Remote").toList)
        publication_date := published
        salary_min := ps.1
        salary_max := ps.2
        currency := none
        url := (item.url).getD []
        source := ("Remotive").toList }

/-! ### Merging in `main.scrape_jobs` (`src/main.py` lines 91-102)

`scrape_jobs` concatenates the adapters' results and then
deduplicates, sorts and truncates; the claims quantify over the
concatenated list, so the embedding starts there. -/

/-- The dedup pass of `scrape_jobs`: drop jobs with an empty `url`
(Python truthiness of `job.url`) or an already-seen `url`, keeping the
first-seen record of each `url`. -/
def scrapeDedup : List Job → List (List Char) → List Job
  | [], _ => []
  | j :: rest, seen =>
    if j.url = [] ∨ j.url ∈ seen then scrapeDedup rest seen
    else j :: scrapeDedup rest (j.url :: seen)

/-- `j.average_salary or 0.0`: an absent (or zero) average is ranked as
`0`. -/
def scrapeSortSalary (j : Job) : ℚ := (j.average_salary).getD 0

/-- The sort key of `scrape_jobs`: `(j.average_salary or 0.0,
j.publication_date)`, with the datetime read at its UTC instant (the
claims only apply this when all records are timezone-aware, where this
is exactly Python's datetime comparison). -/
def scrapeSortKey (j : Job) : ℚ × ℤ := (scrapeSortSalary j, j.publication_date.utcKey)

/-- The comparison of `unique_jobs.sort(key=..., reverse=True)`:
a stable descending sort, i.e. a stable sort by `≥` on the
lexicographic key. -/
def jobDescLe (a b : Job) : Bool := decide (toLex (scrapeSortKey b) ≤ toLex (scrapeSortKey a))

/-- Dedup, stable descending sort, truncate to `limit`: the tail of
`scrape_jobs` applied to the concatenated adapter results. -/
def scrapePostprocess (jobs : List Job) (limit : ℕ) : List Job :=
  ((scrapeDedup jobs []).mergeSort jobDescLe).take limit

/-- The first record of `l` carrying url `u`. -/
def firstWithUrl (l : List Job) (u : List Char) : Option Job :=
  l.find? (fun j => decide (j.url = u))

/-! ### Firestore batched upsert (`src/firebase.py`, `upsert_jobs_batch`) -/

/-- `job.url.replace("/", "_").replace(":", "_")`: the document id. -/
def docId (u : List Char) : List Char :=
  u.map (fun c => if c = '/' ∨ c = ':' then '_' else c)

/-- Observable outcome of `upsert_jobs_batch`: the sizes of the batch
commits in order, the staged document ids in staging order, and the
returned total. -/
structure UpsertTrace where
  commits : List ℕ
  staged : List (List Char)
  total : ℕ
deriving DecidableEq, Repr

/-- The `for job in jobs` loop of `upsert_jobs_batch`, carrying the
loop state (`count`, `total`, commits so far, staged ids so far):
skip a job with an empty url; otherwise stage its document and commit
a batch whenever `count >= batch_size`; after the loop commit the
remainder if `count > 0` and return `total`. -/
def upsertLoop (batchSize : ℕ) : List Job → ℕ → ℕ → List ℕ → List (List Char) → UpsertTrace
  | [], count, total, commits, staged =>
    if 0 < count then ⟨commits ++ [count], staged, total⟩ else ⟨commits, staged, total⟩
  | j :: rest, count, total, commits, staged =>
    if j.url = [] then upsertLoop batchSize rest count total commits staged
    else
      let count' := count + 1
      let staged' := staged ++ [docId j.url]
      if batchSize ≤ count' then
        upsertLoop batchSize rest 0 (total + 1) (commits ++ [count']) staged'
      else
        upsertLoop batchSize rest count' (total + 1) commits staged'

/-- `firebase.upsert_jobs_batch jobs batch_size` (the Firestore client
and collection only name the write targets and do not affect the trace). -/
def upsert_jobs_batch (jobs : List Job) (batchSize : ℕ) : UpsertTrace :=
  upsertLoop batchSize jobs 0 0 [] []

/-! ### Adzuna credentials (`src/sources/adzuna.py`) -/

/-- Observable side effects of the Adzuna adapter: the credential
warning and outgoing HTTP requests. -/
inductive AdzEvent where
  | warn : AdzEvent
  | httpGet : AdzEvent
deriving DecidableEq, Repr

/-- Python truthiness of `os.environ.get(...)`: false when the variable
is unset (`None`) or set to the empty string. -/
def pyTruthyStrOpt (s : Option (List Char)) : Bool :=
  match s with
  | some t => decide (¬ t = [])
  | none => false

/-- `adzuna._get_credentials`: read both environment variables; if
either is unset or empty, log a warning and return `(None, None)`. -/
def adzunaGetCredentials (env : List Char → Option (List Char)) :
    (Option (List Char) × Option (List Char)) × List AdzEvent :=
  let appId := env (("ADZUNA_APP_ID").toList)
  let appKey := env (("ADZUNA_APP_KEY").toList)
  if pyTruthyStrOpt appId = false ∨ pyTruthyStrOpt appKey = false then
    ((none, none), [AdzEvent.warn])
  else ((appId, appKey), [])

/-- `adzuna.fetch_jobs`, up to its credential guard
(`if not app_id or not app_key: return []`).  The per-country request
loop that follows the guard depends only on the credentials and the
network, and is abstracted as the continuation `body`, which returns
the fetched jobs together with the events (HTTP requests) it performs. -/
def adzunaFetchJobs (env : List Char → Option (List Char))
    (body : List Char → List Char → List Job × List AdzEvent) :
    List Job × List AdzEvent :=
  let r := adzunaGetCredentials env
  if pyTruthyStrOpt r.1.1 = false ∨ pyTruthyStrOpt r.1.2 = false then ([], r.2)
  else
    let rest := body (r.1.1.getD []) (r.1.2.getD [])
    (rest.1, r.2 ++ rest.2)

/-! ### Module-level names (`src/main.py`, `src/firebase.py`)

Claim C1 is about Python's import machinery: `from .firebase import
init_firebase, upsert_jobs` at the top of `src/main.py` succeeds iff
every requested name is bound at the top level of `src/firebase.py`.
The two name lists below enumerate, from the source, every name bound
at module top level (imports, classes, `def`s and assignments). -/

/-- Names bound at the top level of `src/firebase.py`. -/
def firebaseModuleNames : List String :=
  ["annotations", "logging", "os", "Iterable", "Optional",
   "DefaultCredentialsError", "Client", "Job", "firebase_admin",
   "credentials", "firestore", "LOGGER", "init_firebase",
   "upsert_jobs_batch"]

/-- Names bound at the top level of `src/main.py`, were the module to
finish loading (the binding `upsert_jobs` is the one its line 37 import
*requests*; C1 shows that import cannot succeed).  `DEFAULT_TOP_COMPANIES`
is referenced on line 54 but appears in no assignment, import or `def`
anywhere in the file, so it is absent here. -/
def mainModuleNames : List String :=
  ["annotations", "argparse", "csv", "_dt", "logging", "os", "signal",
   "sys", "List", "Optional", "schedule", "time", "load_dotenv", "_os",
   "_sys", "parent_dir", "init_firebase", "upsert_jobs",
   "fetch_adzuna_jobs", "fetch_remote_ok_jobs", "fetch_remotive_jobs",
   "Job", "to_local_date_str", "LOGGER", "load_top_companies",
   "scrape_jobs", "save_jobs_to_csv", "run_pipeline", "schedule_pipeline",
   "main_cli", "_run_app", "_register_appify"]

/-- Every function or class defined anywhere in the repository
(`src/utils.py`, `src/firebase.py`, `src/main.py`, the three adapters
and the `sources` package), by its `def`/`class` name. -/
def repoDefNames : List String :=
  ["Job", "average_salary", "is_recent", "is_top_company",
   "to_local_date_str", "init_firebase", "upsert_jobs_batch",
   "load_top_companies", "scrape_jobs", "save_jobs_to_csv",
   "run_pipeline", "schedule_pipeline", "main_cli", "_run_app",
   "_register_appify", "fetch_jobs", "_parse_salary", "_get_credentials"]

/-- Python `from <module> import <names>`: succeeds iff every requested
name is bound in the module; otherwise raises `ImportError` (and the
importing module never finishes loading). -/
def pythonFromImport (exports : List String) (names : List String) :
    Except PyError Unit :=
  if names.all (fun n => exports.contains n) then .ok () else .error .importError

/-- `main.load_top_companies`, on the value of the configured
environment variable.  The unset/empty branch executes
`return DEFAULT_TOP_COMPANIES`, which resolves the name in the module's
global scope: since `DEFAULT_TOP_COMPANIES` is bound nowhere in
`src/main.py`, that resolution raises `NameError` (the `.ok []` arm is
unreachable and only renders the lookup's success case).  The set
branch is `[c.strip() for c in value.split(",") if c.strip()]`. -/
def load_top_companies (envValue : Option (List Char)) :
    Except PyError (List (List Char)) :=
  if pyTruthyStrOpt envValue = false then
    if mainModuleNames.contains ("DEFAULT_TOP_COMPANIES") then .ok []
    else .error .nameError
  else
    .ok ((((envValue.getD []).splitOn ',').map pyStrip).filter
      (fun c => decide (¬ c = [])))

/-- The jobs `upsert_jobs_batch` stages: those with a non-empty url,
in order. -/
def validJobs (l : List Job) : List Job :=
  l.filter (fun j => decide (¬ j.url = []))

/-- The post-processing contract of `scrape_jobs` on a combined adapter
result list (claim C6): every output record has a non-empty url and is
the first input record with its url; output urls are pairwise distinct;
the output is sorted descending by the lexicographic key
`(average_salary or 0, publication_date)`; records with equal sort keys
keep their dedup-pass (first-seen) relative order; the output length is
`limit` capped by the number of distinct non-empty urls; and every
non-empty input url survives the dedup pass. -/
def ScrapeOutputSpec (jobs : List Job) (limit : ℕ) : Prop :=
  (∀ j ∈ scrapePostprocess jobs limit, j.url ≠ [] ∧ firstWithUrl jobs j.url = some j) ∧
  ((scrapePostprocess jobs limit).map (fun j => j.url)).Nodup ∧
  (scrapePostprocess jobs limit).Pairwise
    (fun a b => toLex (scrapeSortKey b) ≤ toLex (scrapeSortKey a)) ∧
  (∀ a b, scrapeSortKey a = scrapeSortKey b →
    List.Sublist [a, b] (scrapePostprocess jobs limit) →
    List.Sublist [a, b] (scrapeDedup jobs [])) ∧
  (scrapePostprocess jobs limit).length = min limit (scrapeDedup jobs []).length ∧
  (∀ j ∈ jobs, j.url ≠ [] → ∃ x ∈ scrapeDedup jobs [], x.url = j.url)

/-! ## Claim theorems -/

/-- Claim C1: `src/main.py` line 37 imports the name `upsert_jobs` from
the firebase module, but `src/firebase.py` binds only
`upsert_jobs_batch` (and not `upsert_jobs`), so loading the orchestrator
module raises `ImportError` before any pipeline logic can run; moreover
no function named `upsert_jobs` — the function `run_pipeline` line 162
calls for its upsert step — is defined anywhere in the repository. -/
theorem claim_C1_import_of_upsert_jobs_fails :
    pythonFromImport firebaseModuleNames (["init_firebase", "upsert_jobs"]) =
      .error .importError ∧
    ("upsert_jobs") ∉ firebaseModuleNames ∧
    ("upsert_jobs_batch") ∈ firebaseModuleNames ∧
    ("upsert_jobs") ∉ repoDefNames ∧
    pythonFromImport firebaseModuleNames (["init_firebase", "upsert_jobs_batch"]) =
      .ok () :=
  ⟨rfl, by decide, by decide, by decide, rfl⟩

/-- Claim C2 (code bug): when the environment variable is unset or
empty, `load_top_companies` executes `return DEFAULT_TOP_COMPANIES`,
but no binding of `DEFAULT_TOP_COMPANIES` exists anywhere in
`src/main.py`, so the call raises `NameError` instead of returning a
built-in default list.  The set branch does behave as claimed:
comma-split, whitespace-trimmed, empty entries dropped. -/
theorem claim_C2_default_top_companies_name_error :
    load_top_companies none = .error .nameError ∧
    load_top_companies (some []) = .error .nameError ∧
    ("DEFAULT_TOP_COMPANIES") ∉ mainModuleNames ∧
    load_top_companies (some ((" Google , OpenAI ,, ").toList)) =
      .ok [("Google").toList, ("OpenAI").toList] :=
  ⟨rfl, rfl, by decide, rfl⟩

/-- Claim C3 (code bug): `Job.average_salary` is the mean when both
bounds are present and behaves as claimed for a present single bound in
most cases — but the fallback is the Python-truthiness expression
`self.salary_max or self.salary_min`, so a record whose only present
bound is `salary_max = 0` gets an *absent* average, although the claim
(and the method's own docstring) demand the value `0`. -/
theorem claim_C3_average_salary_truthiness :
    Job.average_salary ⟨[], [], [], ⟨0, none⟩, some 80000, some 120000, none, [], []⟩ =
      some 100000 ∧
    Job.average_salary ⟨[], [], [], ⟨0, none⟩, none, some 90000, none, [], []⟩ =
      some 90000 ∧
    (⟨[], [], [], ⟨0, none⟩, none, some 0, none, [], []⟩ : Job).salary_max = some 0 ∧
    Job.average_salary ⟨[], [], [], ⟨0, none⟩, none, some 0, none, [], []⟩ = none ∧
    Job.average_salary ⟨[], [], [], ⟨0, none⟩, some 0, none, none, [], []⟩ = some 0 := by
  refine ⟨?_, ?_, rfl, ?_, ?_⟩
  · show some ((80000 + 120000) / 2 : ℚ) = some 100000
    norm_num
  · show pyOrOpt (some 90000) none = some 90000
    norm_num [pyOrOpt]
  · show pyOrOpt (some 0) (none : Option ℚ) = none
    norm_num [pyOrOpt]
  · show pyOrOpt none (some 0) = some 0
    norm_num [pyOrOpt]

/-- Claim C5 (code bug): the string `2024-01-01T00:00:00` parses
successfully under ISO-8601 but carries no UTC offset, so the Remotive
adapter builds a *naive* `publication_date`; the recency filter then
compares it against an aware cutoff and raises `TypeError` (which is
outside the adapter's `try`), instead of skipping the item or yielding
a timezone-aware record. -/
theorem claim_C5_naive_publication_date_raises :
    fromisoformat (("2024-01-01T00:00:00").toList) = some ⟨1704067200, none⟩ ∧
    remotiveProcessItem 1704844800 7 0 []
      ⟨some (("2024-01-01T00:00:00").toList), none, none, none, none,
        some (("https://remotive.com/j/1").toList)⟩ = .error .typeError :=
  ⟨rfl, rfl⟩

/-- Claim C8: for a job with a timezone-aware `publication_date`,
`is_recent(job, days)` returns (without raising) exactly the comparison
`publication_date ≥ now − days·86400` of UTC instants, so the boundary
is inclusive. -/
theorem claim_C8_is_recent_inclusive_boundary (now days n off : ℤ) (j : Job)
    (h : j.publication_date = ⟨n, some off⟩) :
    is_recent now j days = .ok (decide (now - days * 86400 ≤ n - off)) := by
  simp [is_recent, pyDtGe, h]

/-- Witness for C8, at the claim's own boundary: with `days = 7` and
current time `0`, a job published exactly `7·86400` seconds earlier is
recent, and one a second older is not. -/
theorem claim_C8_is_recent_inclusive_boundary_witness :
    (⟨[], [], [], ⟨-604800, some 0⟩, none, none, none, [], []⟩ : Job).publication_date =
      ⟨-604800, some 0⟩ ∧
    is_recent 0 ⟨[], [], [], ⟨-604800, some 0⟩, none, none, none, [], []⟩ 7 = .ok true ∧
    is_recent 0 ⟨[], [], [], ⟨-604801, some 0⟩, none, none, none, [], []⟩ 7 = .ok false := by
  refine ⟨rfl, ?_, ?_⟩
  · rw [claim_C8_is_recent_inclusive_boundary 0 7 (-604800) 0 _ rfl]
    norm_num
  · rw [claim_C8_is_recent_inclusive_boundary 0 7 (-604801) 0 _ rfl]
    norm_num

/-- Claim C9: the Remote OK adapter drops an item with an absent
computed average even when `min_salary` is `0`, and drops any present
average below `min_salary`; the Remotive adapter drops an absent
average exactly when `min_salary > 0` (so retains it at `0`), and
likewise drops any present average below `min_salary`. -/
theorem claim_C9_absent_salary_drop_policies (ms v : ℚ) :
    remoteOkSalaryKeep (adapterAvgSalary none none) ms = false ∧
    remoteOkSalaryKeep (some v) ms = decide (ms ≤ v) ∧
    remotiveSalaryKeep (adapterAvgSalary none none) ms = decide (ms ≤ 0) ∧
    remotiveSalaryKeep (adapterAvgSalary none none) 0 = true ∧
    remotiveSalaryKeep (some v) ms = decide (ms ≤ v) := by
  refine ⟨rfl, ?_, ?_, by norm_num [remotiveSalaryKeep, adapterAvgSalary], ?_⟩
  · show decide (¬ v < ms) = decide (ms ≤ v)
    rw [decide_eq_decide]
    exact not_lt
  · show decide (¬ 0 < ms) = decide (ms ≤ 0)
    rw [decide_eq_decide]
    exact not_lt
  · show decide (¬ v < ms) = decide (ms ≤ v)
    rw [decide_eq_decide]
    exact not_lt

/-- Claim C10: if either Adzuna environment variable is unset or empty,
`fetch_jobs` logs exactly the credential warning and returns the empty
list at its guard, performing none of the per-country requests. -/
theorem claim_C10_missing_credentials_no_request
    (env : List Char → Option (List Char))
    (body : List Char → List Char → List Job × List AdzEvent)
    (h : pyTruthyStrOpt (env (("ADZUNA_APP_ID").toList)) = false ∨
        pyTruthyStrOpt (env (("ADZUNA_APP_KEY").toList)) = false) :
    adzunaFetchJobs env body = ([], [AdzEvent.warn]) := by
  have hg : adzunaGetCredentials env = ((none, none), [AdzEvent.warn]) := by
    simp only [adzunaGetCredentials]
    exact if_pos h
  simp only [adzunaFetchJobs, hg]
  rfl

/-- Witness for C10: a wholly unset environment and a body that would
issue a request; the fetch returns no jobs and performs only the
warning. -/
theorem claim_C10_missing_credentials_no_request_witness :
    (pyTruthyStrOpt ((fun _ => none : List Char → Option (List Char))
        (("ADZUNA_APP_ID").toList)) = false ∨
      pyTruthyStrOpt ((fun _ => none : List Char → Option (List Char))
        (("ADZUNA_APP_KEY").toList)) = false) ∧
    adzunaFetchJobs (fun _ => none) (fun _ _ => ([], [AdzEvent.httpGet])) =
      ([], [AdzEvent.warn]) :=
  ⟨Or.inl rfl, claim_C10_missing_credentials_no_request _ _ (Or.inl rfl)⟩

/-! ### Helper lemmas for claim C4 -/

/-- `startsWithChars` decides the library's prefix relation. -/
theorem startsWithChars_iff (p : List Char) : ∀ l : List Char,
    startsWithChars p l = true ↔ p <+: l := by
  induction p with
  | nil => intro l; simp [startsWithChars]
  | cons a as ih =>
    intro l
    cases l with
    | nil => simp [startsWithChars]
    | cons b bs => simp [startsWithChars, ih, List.cons_prefix_cons, And.comm]

/-- `hasSubChars` decides the library's contiguous-substring relation. -/
theorem hasSubChars_iff (p l : List Char) : hasSubChars p l = true ↔ p <:+: l := by
  induction l with
  | nil => simp [hasSubChars, startsWithChars_iff, List.infix_nil, List.prefix_nil]
  | cons c cs ih => simp [hasSubChars, startsWithChars_iff, ih, List.infix_cons_iff]

/-- A captured group always starts with its leading digit. -/
theorem grabNumToken_fst_ne_nil (c : Char) (cs : List Char) :
    (grabNumToken c cs).1 ≠ [] := by
  unfold grabNumToken
  by_cases h : (cs.dropWhile (fun d => d.isDigit || d = ',')).head? = some '.'
  · simp [h]
  · simp [h]

/-- No captured group of the salary regex is the empty string (the
"skip empty strings" guard in `_parse_salary` is dead code). -/
theorem regexScanSalary_fst_ne_nil (s : List Char) :
    ∀ p ∈ regexScanSalary s, p.1 ≠ [] := by
  induction s using regexScanSalary.induct with
  | case1 => simp [regexScanSalary]
  | case2 c cs hdig t hk ih =>
    intro p hp
    have hk' : (grabNumToken c cs).2.head? = some 'k' := hk
    simp only [regexScanSalary, hdig, if_true] at hp
    rw [if_pos hk'] at hp
    rcases List.mem_cons.mp hp with h | h
    · subst h; exact grabNumToken_fst_ne_nil c cs
    · exact ih p h
  | case3 c cs hdig t hk ih =>
    intro p hp
    have hk' : ¬ (grabNumToken c cs).2.head? = some 'k' := hk
    simp only [regexScanSalary, hdig, if_true] at hp
    rw [if_neg hk'] at hp
    rcases List.mem_cons.mp hp with h | h
    · subst h; exact grabNumToken_fst_ne_nil c cs
    · exact ih p h
  | case4 c cs hdig ih =>
    intro p hp
    simp only [regexScanSalary, hdig, if_false, ite_false] at hp
    exact ih p hp

/-- On a list of non-empty tokens, the skip-empty `filterMap` of
`_parse_salary` is just a `map`. -/
theorem filterMap_skip_empty_eq_map (g : List Char → ℚ) :
    ∀ l : List (List Char), (∀ m ∈ l, m ≠ []) →
      l.filterMap (fun m => if m = [] then none else some (g m)) = l.map g := by
  intro l
  induction l with
  | nil => intro _; rfl
  | cons a t ih =>
    intro h
    have ha : ¬ a = [] := h a (by simp)
    simp only [List.filterMap_cons, ha, ite_false, List.map_cons]
    rw [ih (fun m hm => h m (by simp [hm]))]

unseal regexScanSalary in
/-- Claim C4 (amended): in the search-feed salary parser, a captured
numeric token is multiplied by 1000 if and only if that token's text
immediately followed by `k` occurs *anywhere* as a contiguous substring
of the lower-cased input (not necessarily at that occurrence); the
pairing rule and the two concrete examples of the claim hold as
stated. -/
theorem claim_C4_k_multiplier_substring_anywhere (s : List Char) :
    remotiveParseSalary s =
      pairUpNums ((findNumTokens (pyLower s)).map (fun m =>
        if (m ++ ['k']) <:+: pyLower s then tokenValue m * 1000
        else tokenValue m)) ∧
    remotiveParseSalary (("100k-150k").toList) = (some 100000, some 150000) ∧
    remotiveParseSalary (("60k").toList) = (none, some 60000) := by
  refine ⟨?_, ?_, ?_⟩
  · simp only [remotiveParseSalary]
    by_cases hms : findNumTokens (pyLower s) = []
    · rw [if_pos hms, hms]
      rfl
    · rw [if_neg hms]
      have hne : ∀ m ∈ findNumTokens (pyLower s), m ≠ [] := by
        intro m hm
        simp only [findNumTokens] at hm
        rcases List.mem_map.mp hm with ⟨p, hp, hpe⟩
        exact hpe ▸ regexScanSalary_fst_ne_nil (pyLower s) p hp
      rw [filterMap_skip_empty_eq_map _ _ hne]
      congr 1
      apply List.map_congr_left
      intro m _
      exact if_congr (hasSubChars_iff (m ++ ['k']) (pyLower s)) rfl rfl
  · have e1 : remotiveParseSalary (("100k-150k").toList) =
        (some (tokenValue (("100").toList) * 1000),
          some (tokenValue (("150").toList) * 1000)) := rfl
    have t1 : tokenValue (("100").toList) = ((100 : ℕ) : ℚ) + ((0 : ℕ) : ℚ) / 10 ^ (0 : ℕ) := rfl
    have t2 : tokenValue (("150").toList) = ((150 : ℕ) : ℚ) + ((0 : ℕ) : ℚ) / 10 ^ (0 : ℕ) := rfl
    rw [e1, t1, t2]
    norm_num
  · have e2 : remotiveParseSalary (("60k").toList) =
        (none, some (tokenValue (("60").toList) * 1000)) := rfl
    have t3 : tokenValue (("60").toList) = ((60 : ℕ) : ℚ) + ((0 : ℕ) : ℚ) / 10 ^ (0 : ℕ) := rfl
    rw [e2, t3]
    norm_num

unseal regexScanSalary in
/-- Claim C4 (counterexample): on the input `100 100k` the claim's
per-occurrence rule predicts `(100, 100000)` — the first `100` is not
followed by `k` — but the code multiplies *both* tokens because the
text `100k` occurs elsewhere in the string, returning
`(100000, 100000)`. -/
theorem claim_C4_per_occurrence_counterexample :
    remotiveParseSalary (("100 100k").toList) = (some 100000, some 100000) ∧
    claimParseSalary (("100 100k").toList) = (some 100, some 100000) ∧
    remotiveParseSalary (("100 100k").toList) ≠
      claimParseSalary (("100 100k").toList) := by
  have h1 : remotiveParseSalary (("100 100k").toList) =
      (some (tokenValue (("100").toList) * 1000),
        some (tokenValue (("100").toList) * 1000)) := rfl
  have h2 : claimParseSalary (("100 100k").toList) =
      (some (tokenValue (("100").toList)),
        some (tokenValue (("100").toList) * 1000)) := rfl
  have ht : tokenValue (("100").toList) = ((100 : ℕ) : ℚ) + ((0 : ℕ) : ℚ) / 10 ^ (0 : ℕ) := rfl
  have e1 : remotiveParseSalary (("100 100k").toList) = (some 100000, some 100000) := by
    rw [h1, ht]; norm_num
  have e2 : claimParseSalary (("100 100k").toList) = (some 100, some 100000) := by
    rw [h2, ht]; norm_num
  refine ⟨e1, e2, ?_⟩
  rw [e1, e2]
  norm_num

/-! ### Helper lemmas for claim C7 -/

/-- Closed form of the upsert loop from any in-batch state
`count < batchSize`: the commits are full batches followed by the
remainder, the staged ids are the valid jobs' document ids, and the
total counts the valid jobs. -/
theorem upsertLoop_spec (bs : ℕ) (hbs : 1 ≤ bs) :
    ∀ (l : List Job) (count total : ℕ) (commits : List ℕ) (staged : List (List Char)),
      count < bs →
      upsertLoop bs l count total commits staged =
        { commits := commits ++
            List.replicate ((count + (validJobs l).length) / bs) bs ++
            (if (count + (validJobs l).length) % bs = 0 then []
              else [(count + (validJobs l).length) % bs])
          staged := staged ++ (validJobs l).map (fun j => docId j.url)
          total := total + (validJobs l).length } := by
  intro l
  induction l with
  | nil =>
    intro count total commits staged hcount
    have hdiv : count / bs = 0 := Nat.div_eq_of_lt hcount
    have hmod : count % bs = count := Nat.mod_eq_of_lt hcount
    simp only [upsertLoop, validJobs, List.filter_nil, List.length_nil, Nat.add_zero,
      List.map_nil, List.append_nil, hdiv, hmod, List.replicate_zero]
    by_cases hc : 0 < count
    · rw [if_pos hc, if_neg (by omega)]
    · rw [if_neg hc, if_pos (by omega)]
      simp
  | cons j rest ih =>
    intro count total commits staged hcount
    simp only [upsertLoop]
    by_cases hurl : j.url = []
    · rw [if_pos hurl, ih count total commits staged hcount]
      have hv : validJobs (j :: rest) = validJobs rest := by
        simp [validJobs, List.filter_cons, hurl]
      rw [hv]
    · rw [if_neg hurl]
      have hv : validJobs (j :: rest) = j :: validJobs rest := by
        simp [validJobs, List.filter_cons, hurl]
      by_cases hfull : bs ≤ count + 1
      · have hc1 : count + 1 = bs := by omega
        rw [if_pos hfull, ih 0 (total + 1) (commits ++ [count + 1])
          (staged ++ [docId j.url]) (by omega)]
        rw [hv]
        have e1 : count + (j :: validJobs rest).length = (validJobs rest).length + bs := by
          simp only [List.length_cons]; omega
        rw [e1, Nat.add_div_right _ (by omega), Nat.add_mod_right]
        simp only [Nat.zero_add, List.replicate_succ, List.map_cons, UpsertTrace.mk.injEq]
        refine ⟨?_, ?_, ?_⟩
        · rw [hc1]
          simp [List.append_assoc]
        · simp [List.append_assoc]
        · omega
      · rw [if_neg hfull, ih (count + 1) (total + 1) commits
          (staged ++ [docId j.url]) (by omega)]
        rw [hv]
        have e1 : count + 1 + (validJobs rest).length = count + (j :: validJobs rest).length := by
          simp only [List.length_cons]; omega
        rw [e1]
        simp only [List.map_cons, UpsertTrace.mk.injEq]
        refine ⟨?_, ?_, ?_⟩
        · trivial
        · simp [List.append_assoc]
        · omega

/-- Claim C7: `upsert_jobs_batch` stages exactly the jobs with a
non-empty url, in order, each under the document id obtained by
replacing `/` and `:` with `_`; the returned total is the number of
staged jobs; and with `batch_size ≥ 1` the commit sizes are
`total / batch_size` full batches followed by a final partial batch of
`total % batch_size` when that remainder is non-zero — so every commit
is non-empty and at most `batch_size`, and the commit sizes sum to the
total. -/
theorem claim_C7_upsert_batching (jobs : List Job) (batchSize : ℕ)
    (hbs : 1 ≤ batchSize) :
    (upsert_jobs_batch jobs batchSize).staged =
      (validJobs jobs).map (fun j => docId j.url) ∧
    (upsert_jobs_batch jobs batchSize).total = (validJobs jobs).length ∧
    (upsert_jobs_batch jobs batchSize).commits =
      List.replicate ((validJobs jobs).length / batchSize) batchSize ++
        (if (validJobs jobs).length % batchSize = 0 then []
          else [(validJobs jobs).length % batchSize]) ∧
    (upsert_jobs_batch jobs batchSize).commits.sum = (validJobs jobs).length ∧
    (∀ c ∈ (upsert_jobs_batch jobs batchSize).commits, 0 < c ∧ c ≤ batchSize) := by
  have h := upsertLoop_spec batchSize hbs jobs 0 0 [] [] (by omega)
  unfold upsert_jobs_batch
  rw [h]
  refine ⟨by simp, by simp, by simp, ?_, ?_⟩
  · dsimp only
    simp only [Nat.zero_add, List.nil_append]
    rw [List.sum_append, List.sum_replicate, smul_eq_mul]
    have hdm : (validJobs jobs).length / batchSize * batchSize +
        (validJobs jobs).length % batchSize = (validJobs jobs).length :=
      Nat.div_add_mod' _ _
    by_cases hm : (validJobs jobs).length % batchSize = 0
    · rw [if_pos hm]
      simp only [List.sum_nil]
      omega
    · rw [if_neg hm]
      simp only [List.sum_cons, List.sum_nil]
      omega
  · intro c hc
    simp only [Nat.zero_add, List.nil_append] at hc
    rcases List.mem_append.mp hc with hc | hc
    · have := List.eq_of_mem_replicate hc
      subst this
      omega
    · by_cases hm : (validJobs jobs).length % batchSize = 0
      · rw [if_pos hm] at hc
        simp at hc
      · rw [if_neg hm] at hc
        have hd : c = (validJobs jobs).length % batchSize := by
          simpa using hc
        have hlt : (validJobs jobs).length % batchSize < batchSize :=
          Nat.mod_lt _ (by omega)
        omega

/-- Witness for C7, at the claim's own scenario: 850 jobs with a
non-empty url and `batch_size = 400` give exactly the commits
`[400, 400, 50]` and total `850`; an empty job list gives no commits
and total `0`. -/
theorem claim_C7_upsert_batching_witness :
    (1 : ℕ) ≤ 400 ∧
    (upsert_jobs_batch
      (List.replicate 850 ⟨[], [], [], ⟨0, some 0⟩, none, none, none, ['u'], []⟩)
      400).commits = [400, 400, 50] ∧
    (upsert_jobs_batch
      (List.replicate 850 ⟨[], [], [], ⟨0, some 0⟩, none, none, none, ['u'], []⟩)
      400).total = 850 ∧
    (upsert_jobs_batch ([] : List Job) 400).commits = [] ∧
    (upsert_jobs_batch ([] : List Job) 400).total = 0 := by
  have h := claim_C7_upsert_batching
    (List.replicate 850 ⟨[], [], [], ⟨0, some 0⟩, none, none, none, ['u'], []⟩)
    400 (by norm_num)
  have h0 := claim_C7_upsert_batching ([] : List Job) 400 (by norm_num)
  have hv : validJobs
      (List.replicate 850 ⟨[], [], [], ⟨0, some 0⟩, none, none, none, ['u'], []⟩) =
      List.replicate 850 ⟨[], [], [], ⟨0, some 0⟩, none, none, none, ['u'], []⟩ := by
    unfold validJobs
    refine List.filter_eq_self.mpr ?_
    intro a ha
    have he := List.eq_of_mem_replicate ha
    subst he
    decide
  refine ⟨by norm_num, ?_, ?_, ?_, ?_⟩
  · rw [h.2.2.1, hv]
    simp only [List.length_replicate]
    decide
  · rw [h.2.1, hv]
    simp only [List.length_replicate]
  · rw [h0.2.2.1]
    decide
  · rw [h0.2.1]
    decide

/-! ### Helper lemmas for claim C6 -/

/-- `jobDescLe` is transitive. -/
theorem jobDescLe_trans : ∀ a b c : Job, jobDescLe a b = true → jobDescLe b c = true →
    jobDescLe a c = true := by
  intro a b c
  simp only [jobDescLe, decide_eq_true_eq]
  intro h1 h2
  exact le_trans h2 h1

/-- `jobDescLe` is total. -/
theorem jobDescLe_total : ∀ a b : Job, (jobDescLe a b || jobDescLe b a) = true := by
  intro a b
  simp only [jobDescLe, Bool.or_eq_true, decide_eq_true_eq]
  exact le_total _ _

/-- Every record surviving the dedup pass has a url outside `seen`, a
non-empty url, and is the first record of the input with its url. -/
theorem scrapeDedup_mem : ∀ (l : List Job) (seen : List (List Char)) (j : Job),
    j ∈ scrapeDedup l seen →
      j.url ∉ seen ∧ j.url ≠ [] ∧ firstWithUrl l j.url = some j := by
  intro l
  induction l with
  | nil => intro seen j h; simp [scrapeDedup] at h
  | cons a rest ih =>
    intro seen j h
    simp only [scrapeDedup] at h
    by_cases hc : a.url = [] ∨ a.url ∈ seen
    · rw [if_pos hc] at h
      obtain ⟨h1, h2, h3⟩ := ih seen j h
      have hne : ¬ a.url = j.url := by
        intro he
        rcases hc with hc | hc
        · exact h2 (by rw [← he]; exact hc)
        · exact h1 (by rw [← he]; exact hc)
      refine ⟨h1, h2, ?_⟩
      unfold firstWithUrl at h3 ⊢
      rw [List.find?_cons_of_neg _ (by simpa using hne)]
      exact h3
    · rw [if_neg hc] at h
      push_neg at hc
      rcases List.mem_cons.mp h with he | h'
      · subst he
        refine ⟨hc.2, hc.1, ?_⟩
        unfold firstWithUrl
        rw [List.find?_cons_of_pos _ (by simp)]
      · obtain ⟨h1, h2, h3⟩ := ih (a.url :: seen) j h'
        have hne : ¬ a.url = j.url := by
          intro he
          exact h1 (by rw [← he]; exact List.mem_cons_self _ _)
        refine ⟨fun hs => h1 (List.mem_cons_of_mem _ hs), h2, ?_⟩
        unfold firstWithUrl at h3 ⊢
        rw [List.find?_cons_of_neg _ (by simpa using hne)]
        exact h3

/-- The urls surviving the dedup pass are pairwise distinct. -/
theorem scrapeDedup_urls_nodup : ∀ (l : List Job) (seen : List (List Char)),
    ((scrapeDedup l seen).map (fun j => j.url)).Nodup := by
  intro l
  induction l with
  | nil => intro seen; simp [scrapeDedup]
  | cons a rest ih =>
    intro seen
    simp only [scrapeDedup]
    by_cases hc : a.url = [] ∨ a.url ∈ seen
    · rw [if_pos hc]; exact ih seen
    · rw [if_neg hc]
      simp only [List.map_cons, List.nodup_cons]
      refine ⟨?_, ih (a.url :: seen)⟩
      intro hmem
      rcases List.mem_map.mp hmem with ⟨x, hx, he⟩
      have := (scrapeDedup_mem rest (a.url :: seen) x hx).1
      exact this (by rw [he]; exact List.mem_cons_self _ _)

/-- Every non-empty, not-yet-seen url of the input survives the dedup
pass. -/
theorem scrapeDedup_covers : ∀ (l : List Job) (seen : List (List Char)) (j : Job),
    j ∈ l → j.url ≠ [] → j.url ∉ seen →
      ∃ x ∈ scrapeDedup l seen, x.url = j.url := by
  intro l
  induction l with
  | nil => intro seen j hj; simp at hj
  | cons a rest ih =>
    intro seen j hj hne hnotseen
    simp only [scrapeDedup]
    by_cases hc : a.url = [] ∨ a.url ∈ seen
    · rw [if_pos hc]
      rcases List.mem_cons.mp hj with he | hj'
      · subst he
        rcases hc with hc | hc
        · exact absurd hc hne
        · exact absurd hc hnotseen
      · exact ih seen j hj' hne hnotseen
    · rw [if_neg hc]
      by_cases heq : j.url = a.url
      · exact ⟨a, List.mem_cons_self _ _, heq.symm⟩
      · rcases List.mem_cons.mp hj with he | hj'
        · subst he; exact absurd rfl heq
        · obtain ⟨x, hx, he⟩ := ih (a.url :: seen) j hj' hne
            (by simp [hnotseen, heq])
          exact ⟨x, List.mem_cons_of_mem _ hx, he⟩

/-- Two distinct members of a duplicate-free list occur in one order or
the other as a two-element sublist. -/
theorem pair_sublist_of_mem {α : Type} {a b : α} : ∀ {l : List α}, l.Nodup →
    a ∈ l → b ∈ l → a ≠ b →
      List.Sublist [a, b] l ∨ List.Sublist [b, a] l := by
  intro l
  induction l with
  | nil => intro _ ha; simp at ha
  | cons x xs ih =>
    intro hnd ha hb hne
    rcases List.mem_cons.mp ha with he | ha'
    · subst he
      have hb' : b ∈ xs := by
        rcases List.mem_cons.mp hb with he | h
        · exact absurd he.symm hne
        · exact h
      exact Or.inl (List.Sublist.cons₂ _ (List.singleton_sublist.mpr hb'))
    · rcases List.mem_cons.mp hb with he | hb'
      · subst he
        exact Or.inr (List.Sublist.cons₂ _ (List.singleton_sublist.mpr ha'))
      · rcases ih (List.Nodup.of_cons hnd) ha' hb' hne with h | h
        · exact Or.inl (h.cons _)
        · exact Or.inr (h.cons _)

/-- In a duplicate-free list, two distinct elements cannot occur as a
two-element sublist in both orders. -/
theorem not_pair_sublist_both {α : Type} {a b : α} : ∀ {l : List α}, l.Nodup →
    a ≠ b → List.Sublist [a, b] l → List.Sublist [b, a] l → False := by
  intro l
  induction l with
  | nil => intro _ _ h1; simp at h1
  | cons x xs ih =>
    intro hnd hne h1 h2
    cases h1 with
    | cons _ h1' =>
      cases h2 with
      | cons _ h2' => exact ih (List.Nodup.of_cons hnd) hne h1' h2'
      | cons₂ _ h2' =>
        have hbxs : b ∈ xs := (List.Sublist.subset h1') (by simp)
        exact (List.nodup_cons.mp hnd).1 hbxs
    | cons₂ _ h1' =>
      cases h2 with
      | cons _ h2' =>
        have haxs : a ∈ xs := (List.Sublist.subset h2') (by simp)
        exact (List.nodup_cons.mp hnd).1 haxs
      | cons₂ _ h2' => exact hne rfl

/-- Claim C6: on any combined adapter result list whose records all
carry timezone-aware publication dates (the regime in which Python's
tuple comparison in the sort is defined), the tail of `scrape_jobs`
removes empty-url records, deduplicates by exact url keeping the
first-seen record, sorts descending by
`(average_salary or 0, publication_date)` with first-seen order among
equal keys, and truncates to `limit` — the conjunction packaged as
`ScrapeOutputSpec`. -/
theorem claim_C6_scrape_merge_dedup_sort_truncate (jobs : List Job) (limit : ℕ)
    (_haware : ∀ j ∈ jobs, (j.publication_date.tz).isSome = true) :
    ScrapeOutputSpec jobs limit := by
  have hT := jobDescLe_trans
  have hTot := jobDescLe_total
  have hperm : ((scrapeDedup jobs []).mergeSort jobDescLe).Perm (scrapeDedup jobs []) :=
    List.mergeSort_perm _ _
  have hnd_urls : ((scrapeDedup jobs []).map (fun j => j.url)).Nodup :=
    scrapeDedup_urls_nodup jobs []
  have hnd_d : (scrapeDedup jobs []).Nodup := List.Nodup.of_map _ hnd_urls
  have hnd_srt : ((scrapeDedup jobs []).mergeSort jobDescLe).Nodup :=
    (hperm.nodup_iff).mpr hnd_d
  have hsorted : ((scrapeDedup jobs []).mergeSort jobDescLe).Pairwise
      (fun a b => jobDescLe a b = true) :=
    List.sorted_mergeSort hT hTot _
  refine ⟨?_, ?_, ?_, ?_, ?_, ?_⟩
  · intro j hj
    have hj1 : j ∈ (scrapeDedup jobs []).mergeSort jobDescLe :=
      List.take_subset _ _ hj
    have hj2 : j ∈ scrapeDedup jobs [] := hperm.subset hj1
    obtain ⟨_, h2, h3⟩ := scrapeDedup_mem jobs [] j hj2
    exact ⟨h2, h3⟩
  · have h1 : (((scrapeDedup jobs []).mergeSort jobDescLe).map (fun j => j.url)).Nodup :=
      ((hperm.map _).nodup_iff).mpr hnd_urls
    exact List.Nodup.sublist (List.Sublist.map _ (List.take_sublist _ _)) h1
  · refine List.Pairwise.sublist (List.take_sublist _ _) ?_
    refine hsorted.imp ?_
    intro a b h
    simpa [jobDescLe] using h
  · intro a b hkey hpair
    have hpair_srt : List.Sublist [a, b] ((scrapeDedup jobs []).mergeSort jobDescLe) :=
      hpair.trans (List.take_sublist _ _)
    have hne : a ≠ b := by
      intro he
      subst he
      exact (List.nodup_iff_sublist.mp hnd_srt a) hpair_srt
    have ha : a ∈ scrapeDedup jobs [] :=
      hperm.subset (hpair_srt.subset (by simp))
    have hb : b ∈ scrapeDedup jobs [] :=
      hperm.subset (hpair_srt.subset (by simp))
    rcases pair_sublist_of_mem hnd_d ha hb hne with h | h
    · exact h
    · exfalso
      have hle : jobDescLe b a = true := by
        simp [jobDescLe, hkey]
      have hpw : List.Pairwise (fun x y => jobDescLe x y = true) [b, a] := by
        refine List.pairwise_cons.mpr ⟨?_, List.pairwise_singleton _ _⟩
        intro y hy
        rcases List.mem_singleton.mp hy with rfl
        exact hle
      have h2 : List.Sublist [b, a] ((scrapeDedup jobs []).mergeSort jobDescLe) :=
        List.sublist_mergeSort hT hTot hpw h
      exact not_pair_sublist_both hnd_srt hne hpair_srt h2
  · simp [scrapePostprocess, List.length_take, List.length_mergeSort]
  · intro j hj hne
    exact scrapeDedup_covers jobs [] j hj hne (by simp)

/-- Witness for C6: two aware-dated jobs with distinct urls from
different feeds satisfy the whole postprocessing contract. -/
theorem claim_C6_scrape_merge_dedup_sort_truncate_witness :
    (∀ j ∈ [(⟨['t'], ['c'], ['l'], ⟨100, some 0⟩, some 50000, some 50000, none,
        ['a'], ['R']⟩ : Job),
      ⟨['u'], ['d'], ['m'], ⟨200, some 0⟩, none, some 90000, none, ['b'], ['S']⟩],
      (j.publication_date.tz).isSome = true) ∧
    ScrapeOutputSpec
      [⟨['t'], ['c'], ['l'], ⟨100, some 0⟩, some 50000, some 50000, none, ['a'], ['R']⟩,
        ⟨['u'], ['d'], ['m'], ⟨200, some 0⟩, none, some 90000, none, ['b'], ['S']⟩] 50 :=
  ⟨by decide, claim_C6_scrape_merge_dedup_sort_truncate _ 50 (by decide)⟩
